import Mathlib

/-!
Verification development for the DVID storage-routing and labelsz subsystems.

Shallow embedding conventions:
* bytes are `Nat` values (< 256 for well-formed data), byte strings are `List Nat`;
* Go `uint16`/`uint32`/`uint64` values are `Nat` with explicit `% 2^w` where the
  source truncates; Go `int` parameters are `Int`;
* fallible Go functions return `Except Err`; the Go `(value, error)` pair with a
  possibly-nil value becomes `Except Err (Option _)`;
* Go maps are association lists in iteration order, lookup is `List.find?`.
-/

/-- Error kinds produced by the embedded code paths.  Each constructor stands for
one `fmt.Errorf` site of the source (constructor arguments keep the data that the
source interpolates into the message). -/
inductive Err where
  | duplicateStore (alias2 alias1 : String)
  | badStore (alias1 : String)
  | notWriteLog (alias1 : String)
  | noDefaultStore
  | badAlias (spec alias1 : String)
  | badSpec (spec : String)
  | notSetup (what : String)
  | graphNotOrdered
  | cannotGetStore (name typename : String)
  | cannotGetLog (name typename : String)
  | noDefaultKV
  | badSizeValue (i : Nat) (label : Nat) (len : Nat)
  | badKeyDecode
  | typeMismatch (expected got : Nat)
  | badTopN
  | badNumLabels
  | pathMissing
  deriving DecidableEq, Repr

/-! ## Byte-string primitives -/

/-- Big-endian byte encoding of `v` in `w` bytes (most significant first),
as produced by `binary.BigEndian.PutUintN` for `v < 256^w`. -/
def beBytes : Nat → Nat → List Nat
  | 0, _ => []
  | w + 1, v => v / 256 ^ w :: beBytes w (v % 256 ^ w)

/-- Big-endian value of a byte string, as read by `binary.BigEndian.UintN`. -/
def beVal : List Nat → Nat
  | [] => 0
  | b :: bs => b * 256 ^ bs.length + beVal bs

/-- Little-endian byte encoding of `v` in `w` bytes (least significant first),
as produced by `binary.LittleEndian.PutUintN`; higher bits are dropped exactly
like the Go integer truncation `uintN(v)`. -/
def leBytes : Nat → Nat → List Nat
  | 0, _ => []
  | w + 1, v => v % 256 :: leBytes w (v / 256)

/-- Little-endian value of a byte string, as read by `binary.LittleEndian.UintN`. -/
def leVal : List Nat → Nat
  | [] => 0
  | b :: bs => b + 256 * leVal bs

/-- Lexicographic comparison of byte strings: the key order of an ordered
key-value store. -/
def bytesCmp : List Nat → List Nat → Ordering
  | [], [] => .eq
  | [], _ :: _ => .lt
  | _ :: _, [] => .gt
  | a :: as, b :: bs =>
    if a < b then .lt else if b < a then .gt else bytesCmp as bs

/-- `a ≤ b` in the lexicographic key order. -/
def bytesLE (a b : List Nat) : Bool :=
  bytesCmp a b ≠ Ordering.gt

/-! ## labelsz type-keys

The key constructors and decoder live in the repository's `keys.go`, which is
not under `src/`; only their callers are.  They are modelled from the spec
(§4.6 key schemas): `RecKey(i, label)` is tag byte `R` (82) ‖ index-type (u8) ‖
label (u64 BE); `SizeKey(i, count, label)` is tag byte `S` (83) ‖ index-type
(u8) ‖ (u32MAX − count) BE ‖ label (u64 BE). -/

/-- Modelled from the spec: `NewTypeLabelTKey(i, label)` builds the `RecKey`
of §4.6: tag byte `R` ‖ index-type (u8) ‖ label (u64 BE). -/
def NewTypeLabelTKey (i label : Nat) : List Nat :=
  82 :: i % 256 :: beBytes 8 (label % 18446744073709551616)

/-- Modelled from the spec: `NewTypeSizeLabelTKey(i, sz, label)` builds the
`SizeKey` of §4.6: tag byte `S` ‖ index-type (u8) ‖ (u32MAX − count) BE ‖
label (u64 BE).  The count is inverted so ascending key order is descending
count order. -/
def NewTypeSizeLabelTKey (i sz label : Nat) : List Nat :=
  83 :: i % 256 ::
    (beBytes 4 (4294967295 - sz % 4294967296) ++ beBytes 8 (label % 18446744073709551616))

/-- Modelled from the spec: `DecodeTypeSizeLabelTKey` inverts
`NewTypeSizeLabelTKey`, checking the tag byte and recovering
(index-type, count = u32MAX − stored, label). -/
def DecodeTypeSizeLabelTKey (k : List Nat) : Option (Nat × Nat × Nat) :=
  match k with
  | tag :: i :: rest =>
    if tag = 83 ∧ rest.length = 12 then
      some (i, 4294967295 - beVal (rest.take 4), beVal (rest.drop 4))
    else none
  | _ => none

/-! ## Ordered key-value store

Modelled from the spec (§4.1): a store is a finite set of key/value pairs; an
`OrderedKeyValueDB` additionally supports `process_range(begin, end, visitor)`
with the visitor invoked in ascending key order over the inclusive span.  We
represent a store as an association list of (key, value) pairs; the range-scan
claims take the ascending order as a `Pairwise` hypothesis. -/

/-- A key-value store snapshot: association list of (key, value) byte strings. -/
abbrev KVStoreM := List (List Nat × List Nat)

/-- Modelled from the spec: point lookup `get(ctx, key)` of a KeyValueDB. -/
def kvGet (store : KVStoreM) (k : List Nat) : Option (List Nat) :=
  (store.find? fun kv => kv.1 == k).map (·.2)

/-- Modelled from the spec: the keys visited by
`process_range(ctx, begin, end, visitor)` — every store key within the
inclusive span `[begin, end]`, in store order (ascending when the store is
sorted). -/
def processRangeKeys (store : KVStoreM) (begKey endKey : List Nat) : List (List Nat) :=
  (store.filter fun kv => bytesLE begKey kv.1 && bytesLE kv.1 endKey).map (·.1)

/-! ## labelsz queries (datatype/labelsz/labelsz.go) -/

/-- `LabelSize` is the count for a given label for some metric like # of
PreSyn annotations. -/
structure LabelSize where
  Label : Nat
  Size : Nat
  deriving DecidableEq, Repr

/-- Maximum number of labels returned in JSON (`MaxLabelsReturned`). -/
def MaxLabelsReturned : Nat := 10000

/-- `GetCountElementType`: point lookup of the count record for
(index-type, label); 0 when absent; an internal-consistency error when the
stored value is not exactly 4 bytes; otherwise the little-endian u32 value. -/
def GetCountElementType (store : KVStoreM) (label i : Nat) : Except Err Nat :=
  match kvGet store (NewTypeLabelTKey i label) with
  | none => .ok 0
  | some val =>
    if val.length ≠ 4 then .error (.badSizeValue i label val.length)
    else .ok (leVal val)

/-- The start of the size-key span scanned by both queries:
`NewTypeSizeLabelTKey(i, math.MaxUint32-1, 0)` in the source. -/
def begTKey (i : Nat) : List Nat :=
  NewTypeSizeLabelTKey i 4294967294 0

/-- The end of the size-key span scanned by both queries:
`NewTypeSizeLabelTKey(i, 0, math.MaxUint64)` in the source. -/
def endTKey (i : Nat) : List Nat :=
  NewTypeSizeLabelTKey i 0 18446744073709551615

/-- The visitor loop of `GetTopElementType`: saves each decoded entry at the
current rank and short-circuits (returning what was collected) once `n`
entries are saved.  A key that fails to decode, or whose index type differs
from the requested one, aborts with an error, exactly as in the source. -/
def topVisit (i n : Nat) : List (List Nat) → Nat → Except Err (List LabelSize)
  | [], _ => .ok []
  | k :: rest, rank =>
    match DecodeTypeSizeLabelTKey k with
    | none => .error .badKeyDecode
    | some (idxType, sz, label) =>
      if idxType = i then
        if rank + 1 ≥ n then .ok [⟨label, sz⟩]
        else (topVisit i n rest (rank + 1)).map (⟨label, sz⟩ :: ·)
      else .error (.typeMismatch i idxType)

/-- `GetTopElementType(ctx, n, i)`: errors on negative `n`, returns `[]` for
`n = 0`, and otherwise scans the size-key span
`[NewTypeSizeLabelTKey(i, maxUint32−1, 0), NewTypeSizeLabelTKey(i, 0, maxUint64)]`
in ascending key order, collecting at most `n` entries. -/
def GetTopElementType (store : KVStoreM) (n : Int) (i : Nat) : Except Err (List LabelSize) :=
  if n < 0 then .error .badTopN
  else if n = 0 then .ok []
  else
    topVisit i n.toNat (processRangeKeys store (begTKey i) (endTKey i)) 0

/-- The visitor loop of `GetLabelsByThreshold`: short-circuits successfully as
soon as a decoded count falls below `minSize`; otherwise counts ranks of
qualifying records, saving those with `offset ≤ rank < offset + nReturns`, and
short-circuits once `nReturns` entries are saved. -/
def thrVisit (i minSize : Nat) (offset : Int) (nReturns : Nat) :
    List (List Nat) → Nat → Nat → Except Err (List LabelSize)
  | [], _, _ => .ok []
  | k :: rest, rank, saved =>
    match DecodeTypeSizeLabelTKey k with
    | none => .error .badKeyDecode
    | some (idxType, sz, label) =>
      if idxType = i then
        if sz < minSize then .ok []
        else if offset ≤ (rank : Int) ∧ (rank : Int) < offset + (nReturns : Int) then
          if saved + 1 = nReturns then .ok [⟨label, sz⟩]
          else (thrVisit i minSize offset nReturns rest (rank + 1) (saved + 1)).map
            (⟨label, sz⟩ :: ·)
        else thrVisit i minSize offset nReturns rest (rank + 1) saved
      else .error (.typeMismatch i idxType)

/-- `GetLabelsByThreshold(ctx, i, minSize, offset, num)`: `num = 0` defaults to
`MaxLabelsReturned`, negative `num` errors, and the same size-key span as
`GetTopElementType` is scanned, skipping the first `offset` qualifying records
and stopping early when a decoded count falls below `minSize`. -/
def GetLabelsByThreshold (store : KVStoreM) (i minSize : Nat) (offset num : Int) :
    Except Err (List LabelSize) :=
  if num = 0 then
    thrVisit i minSize offset MaxLabelsReturned
      (processRangeKeys store (begTKey i) (endTKey i)) 0 0
  else if num < 0 then .error .badNumLabels
  else
    thrVisit i minSize offset num.toNat
      (processRangeKeys store (begTKey i) (endTKey i)) 0 0

/-- The `LabelSize` read off a well-formed size key (used to phrase scan
results; garbage keys map to a dummy entry but the theorems' hypotheses rule
them out). -/
def decodedLS (k : List Nat) : LabelSize :=
  match DecodeTypeSizeLabelTKey k with
  | some (_, sz, label) => ⟨label, sz⟩
  | none => ⟨0, 0⟩

/-- A well-formed size key for index type `i`: its entries are bytes and it
decodes to index type `i`. -/
def wfKey (i : Nat) (k : List Nat) : Bool :=
  (k.all fun b => b < 256) &&
    (match DecodeTypeSizeLabelTKey k with
     | some (idxType, _, _) => idxType == i
     | none => false)

/-- A concrete index snapshot holding 10001 size-keys of index type 1, each
with count 5 (labels 0..10000): used to evaluate the threshold query at a
request for more than `MaxLabelsReturned` labels. -/
def c1Store : KVStoreM :=
  (List.range 10001).map fun l => (NewTypeSizeLabelTKey 1 5 l, [])

/-! ## Append-only file log (storage/filelog/filelog.go)

A log file is its byte contents (`List Nat`); `Append` on one (dataID, version)
file appends the header then the payload, exactly as the source does under the
per-file mutex. -/

/-- `writeHeader` (filelog.go): a 6-byte header — little-endian u16 entry type
followed by little-endian u32 payload length (`uint32(len(data))`). -/
def writeHeaderBytes (entryType : Nat) (data : List Nat) : List Nat :=
  leBytes 2 entryType ++ leBytes 4 data.length

/-- `Append` (filelog.go): writes the header, then the payload, to the end of
the per-(dataID, version) log file. -/
def logAppend (file : List Nat) (entryType : Nat) (p : List Nat) : List Nat :=
  file ++ writeHeaderBytes entryType p ++ p

/-- The file contents after a sequence of `Append(entryType, payload)` calls on
one log file, starting from an empty file. -/
def appendAll (entries : List (Nat × List Nat)) : List Nat :=
  entries.foldl (fun f e => logAppend f e.1 e.2) []

/-- `readHeader` (filelog.go): reads the 6-byte header, failing on a short
read, and decodes (entry type, payload size) little-endian. -/
def readHeaderM (file : List Nat) : Option (Nat × Nat) :=
  if file.length < 6 then none
  else some (leVal (file.take 2), leVal ((file.drop 2).take 4))

/-- Modelled from the spec: the repository has no full log reader under `src/`
(only `readHeader`); per §4.4 / §8.5 read-back iterates `readHeader` and then
consumes the announced number of payload bytes until the file is exhausted. -/
def decodeLog (file : List Nat) : Option (List (Nat × Nat × List Nat)) :=
  if _h6 : file.length < 6 then
    if file = [] then some [] else none
  else
    match readHeaderM file with
    | none => none
    | some (t, sz) =>
      if (file.drop 6).length < sz then none
      else
        match decodeLog ((file.drop 6).drop sz) with
        | none => none
        | some l => some ((t, sz, (file.drop 6).take sz) :: l)
termination_by file.length
decreasing_by
  simp only [List.length_drop]
  omega

/-! ## labelsz ROI filter (datatype/labelsz/labelsz.go `inROI`) -/

/-- A voxel position. -/
abbrev Pos := Int × Int × Int

/-- Modelled from the spec: a static ROI is an immutable set of coordinates
(`roi.Immutable` is not under `src/`); `VoxelWithin` is membership. -/
abbrev ROI := List Pos

/-- Modelled from the spec: `Immutable.VoxelWithin(pos)`. -/
def VoxelWithin (roi : ROI) (p : Pos) : Bool :=
  decide (p ∈ roi)

/-- The fields of labelsz `Data` that `inROI` reads and writes: the static ROI
spec string (immutable after creation) and the lazily-loaded ROI cache guarded
by `iMutex`. -/
structure LabelszData where
  StaticROI : String
  roiChecked : Bool
  iROI : Option ROI

/-- `inROI` (labelsz.go): `true` for every position when no static ROI is
configured; otherwise, on first use (`roiChecked = false`) the immutable ROI is
loaded — `load` stands for the result of `roi.ImmutableBySpec(d.StaticROI)` —
and a load error returns `false` with only `roiChecked` set; afterwards a `nil`
cached ROI yields `false` and a cached ROI answers by `VoxelWithin`. -/
def inROI (load : Except String (Option ROI)) (d : LabelszData) (pos : Pos) :
    Bool × LabelszData :=
  if d.StaticROI = "" then (true, d)
  else if d.roiChecked = false then
    let d1 : LabelszData := { d with roiChecked := true }
    match load with
    | .error _ => (false, d1)
    | .ok r =>
      let d2 : LabelszData := { d1 with iROI := r }
      match d2.iROI with
      | none => (false, d2)
      | some roi => (VoxelWithin roi pos, d2)
  else
    match d.iROI with
    | none => (false, d)
    | some roi => (VoxelWithin roi pos, d)

/-! ## Storage manager (storage/local.go, the `// +build !clustered,!gcloud` file)

The manager routes (instance name, root uuid, datatype) to stores and write
logs.  Engines other than filelog are not under `src/`; per the spec (§2, §4.1)
they are out of scope and only the engine contract matters, so `okv` stands for
any ordered key-value engine and its `equal(config)` is the spec's structural
equality of configurations. -/

/-- The engines available to the model: the filelog write-log engine (in
`src/`) and a generic ordered key-value engine (spec §4.1). -/
inductive EngineKind where
  | filelog
  | okv
  deriving DecidableEq, Repr

/-- A store configuration: the engine plus the settings the filelog engine
reads (`path`, `testing`).  Structural equality of configurations is
`DecidableEq`. -/
structure StoreConfigM where
  engine : EngineKind
  path : Option String := none
  testing : Bool := false
  deriving DecidableEq, Repr

/-- `parseConfig` (filelog.go): requires the `path` setting; under `testing`
the path is joined under the temp directory (modelled as `/tmp`). -/
def parseConfig (c : StoreConfigM) : Except Err (String × Bool) :=
  match c.path with
  | none => .error .pathMissing
  | some p => .ok (if c.testing then "/tmp/" ++ p else p, c.testing)

/-- An opened store: a filelog `writeLogs` value (its resolved path plus the
opening configuration), a generic ordered KV store, or a groupcache wrapper
around a store (spec §4.5). -/
inductive StoreM where
  | wlog (path : String) (config : StoreConfigM)
  | okv (config : StoreConfigM)
  | gcwrap (inner : StoreM)
  deriving DecidableEq, Repr

/-- `Equal(config)`: for filelog `writeLogs.Equal` compares the parsed path of
the given configuration with the opened path (filelog.go); for the generic
ordered engine it is the spec's structural equality of configurations; a
groupcache wrapper is never `Equal` to a raw configuration. -/
def storeEqual : StoreM → StoreConfigM → Bool
  | .wlog p _, c =>
    match parseConfig c with
    | .error _ => false
    | .ok (p2, _) => p == p2
  | .okv cfg, c => cfg == c
  | .gcwrap _, _ => false

/-- Modelled from the spec: `NewStore` dispatches on the engine.  The filelog
branch follows `Engine.newWriteLogs` (filelog.go) minus the IO (the `created`
flag comes from an `os.Stat` call and is modelled as `false`); the generic
ordered engine opens by recording its configuration. -/
def NewStoreM (c : StoreConfigM) : Except Err (StoreM × Bool) :=
  match c.engine with
  | .filelog =>
    match parseConfig c with
    | .error e => .error e
    | .ok (p, _) => .ok (.wlog p c, false)
  | .okv => .ok (.okv c, false)

/-- The `store.(WriteLog)` type assertion. -/
def isWriteLog : StoreM → Bool
  | .wlog _ _ => true
  | _ => false

/-- A store alias from the TOML `[store.<alias>]` sections. -/
abbrev Alias := String

/-- `dvid.DataSpecifier` for a data instance: the (instance name, root uuid)
pair (`dvid.GetDataSpecifier`, not under `src/`, modelled from the spec's
`by_instance[(name,root)]`). -/
abbrev DataSpecifier := String × String

/-- Modelled from the spec: `GetDataSpecifier(name, root)`. -/
def GetDataSpecifier (name root : String) : DataSpecifier := (name, root)

/-- The `[backend]` configuration: stores in iteration order, the `metadata` /
`default` / default-log aliases, the per-datatype and per-instance assignments
(`KVStore`, `LogStore`, keyed by the raw dataspec strings), and the instances
declared groupcache-enabled (spec §4.5). -/
structure Backend where
  stores : List (Alias × StoreConfigM) := []
  metadata : Alias := ""
  defaultKVDB : Alias := ""
  defaultLog : Alias := ""
  kvStore : List (String × Alias) := []
  logStore : List (String × Alias) := []
  groupcacheInstances : List DataSpecifier := []

/-- The global `managerT` state. -/
structure ManagerT where
  setup : Bool := false
  defaultKV : Option StoreM := none
  defaultLog : Option StoreM := none
  metadataStore : Option StoreM := none
  stores : List (Alias × StoreM) := []
  instanceStore : List (DataSpecifier × StoreM) := []
  datatypeStore : List (String × StoreM) := []
  instanceLog : List (DataSpecifier × StoreM) := []
  datatypeLog : List (String × StoreM) := []
  gcacheSupported : List DataSpecifier := []
  graphDB : Option StoreM := none

/-- Go map lookup over an association list. -/
def lookupAssoc {a b : Type} [BEq a] (m : List (a × b)) (k : a) : Option b :=
  (m.find? fun p => p.1 == k).map (·.2)

/-- `assignedStoreByType`: the per-datatype store if assigned, otherwise the
default KV store — returned as-is (`nil` and a nil error when no default
exists). -/
def assignedStoreByType (m : ManagerT) (typename : String) : Except Err (Option StoreM) :=
  if m.setup = false then .error (.notSetup typename)
  else
    match lookupAssoc m.datatypeStore typename with
    | none => .ok m.defaultKV
    | some store => .ok (some store)

/-- Modelled from the spec: `wrapGroupcache` wraps a resolved store with the
read-through cache (§4.5); wrapping a nil store fails.  The pair mirrors the
Go `(store, err)` result. -/
def wrapGroupcache (s : Option StoreM) : Option StoreM × Option Err :=
  match s with
  | some st => (some (.gcwrap st), none)
  | none => (none, some (.badStore "groupcache"))

/-- `GetAssignedStore`: per-instance assignment, else `assignedStoreByType`;
when the instance is groupcache-enabled the resolved store is wrapped, a wrap
error being logged and swallowed (the source ends with `return store, nil`). -/
def GetAssignedStore (m : ManagerT) (dataname root typename : String) :
    Except Err (Option StoreM) :=
  if m.setup = false then .error (.notSetup dataname)
  else
    let dataid := GetDataSpecifier dataname root
    let resolved : Except Err (Option StoreM) :=
      match lookupAssoc m.instanceStore dataid with
      | some store => .ok (some store)
      | none =>
        match assignedStoreByType m typename with
        | .error _ => .error (.cannotGetStore dataname typename)
        | .ok store => .ok store
    match resolved with
    | .error e => .error e
    | .ok store =>
      if dataid ∈ m.gcacheSupported then .ok (wrapGroupcache store).1
      else .ok store

/-- `assignedLogByType`: the per-datatype log if assigned; otherwise the
default log, with `nil, nil` (no error) when no default log is configured. -/
def assignedLogByType (m : ManagerT) (typename : String) : Except Err (Option StoreM) :=
  if m.setup = false then .error (.notSetup typename)
  else
    match lookupAssoc m.datatypeLog typename with
    | none =>
      match m.defaultLog with
      | none => .ok none
      | some l => .ok (some l)
    | some store => .ok (some store)

/-- `GetAssignedLog`: per-instance log assignment, else `assignedLogByType`. -/
def GetAssignedLog (m : ManagerT) (dataname root typename : String) :
    Except Err (Option StoreM) :=
  if m.setup = false then .error (.notSetup dataname)
  else
    match lookupAssoc m.instanceLog (GetDataSpecifier dataname root) with
    | some store => .ok (some store)
    | none =>
      match assignedLogByType m typename with
      | .error _ => .error (.cannotGetLog dataname typename)
      | .ok store => .ok store

/-- The local accumulator of `Initialize`'s store-opening loop. -/
structure OpenAcc where
  stores : List (Alias × StoreM) := []
  defaultKV : Option StoreM := none
  defaultLog : Option StoreM := none
  metadataStore : Option StoreM := none
  gotDefault : Bool := false
  gotMetadata : Bool := false
  createdDefault : Bool := false
  createdMetadata : Bool := false
  lastStore : Option StoreM := none
  lastCreated : Bool := false

/-- The first loop of `Initialize`: open each configured store in order,
rejecting a configuration that an already-opened store's `Equal` matches
(named with both aliases), recording metadata / default-KV / default-log
aliases, and remembering the last opened store. -/
def openStores (bk : Backend) : List (Alias × StoreConfigM) → OpenAcc → OpenAcc × Option Err
  | [], acc => (acc, none)
  | (alias1, dbconfig) :: rest, acc =>
    match acc.stores.find? (fun p => storeEqual p.2 dbconfig) with
    | some p => (acc, some (.duplicateStore alias1 p.1))
    | none =>
      match NewStoreM dbconfig with
      | .error _ => (acc, some (.badStore alias1))
      | .ok (store, created) =>
        let acc1 := if alias1 = bk.metadata then
            { acc with
              gotMetadata := true
              createdMetadata := created
              metadataStore := some store }
          else acc
        let acc2 := if alias1 = bk.defaultKVDB then
            { acc1 with
              gotDefault := true
              createdDefault := created
              defaultKV := some store }
          else acc1
        if alias1 = bk.defaultLog then
          if isWriteLog store then
            openStores bk rest { acc2 with
              defaultLog := some store
              stores := acc2.stores ++ [(alias1, store)]
              lastStore := some store
              lastCreated := created }
          else (acc2, some (.notWriteLog alias1))
        else
          openStores bk rest { acc2 with
            stores := acc2.stores ++ [(alias1, store)]
            lastStore := some store
            lastCreated := created }

/-- `strings.Trim(s, "\"")`: strip leading and trailing quote characters. -/
def trimQuotes (s : String) : String :=
  String.mk (((s.toList.dropWhile (fun c => c = '"')).reverse.dropWhile
    (fun c => c = '"')).reverse)

/-- The `backend.KVStore` assignment loop of `Initialize`: skip `default` and
`metadata`, resolve the alias, and file the store under the datatype name or
the (name, uuid) instance specifier. -/
def assignKVStores (stores : List (Alias × StoreM)) :
    List (String × Alias) →
    (List (DataSpecifier × StoreM) × List (String × StoreM)) →
    (List (DataSpecifier × StoreM) × List (String × StoreM)) × Option Err
  | [], maps => (maps, none)
  | (dataspec, alias1) :: rest, maps =>
    if dataspec = "default" ∨ dataspec = "metadata" then
      assignKVStores stores rest maps
    else
      match lookupAssoc stores alias1 with
      | none => (maps, some (.badAlias dataspec alias1))
      | some store =>
        match (trimQuotes dataspec).splitOn ":" with
        | [t] => assignKVStores stores rest (maps.1, (t, store) :: maps.2)
        | [n, u] => assignKVStores stores rest ((GetDataSpecifier n u, store) :: maps.1, maps.2)
        | _ => (maps, some (.badSpec dataspec))

/-- The `backend.LogStore` assignment loop of `Initialize`: skip `default`,
resolve the alias, require the WriteLog capability, and file the log under the
datatype name or the instance specifier. -/
def assignLogStores (stores : List (Alias × StoreM)) :
    List (String × Alias) →
    (List (DataSpecifier × StoreM) × List (String × StoreM)) →
    (List (DataSpecifier × StoreM) × List (String × StoreM)) × Option Err
  | [], maps => (maps, none)
  | (dataspec, alias1) :: rest, maps =>
    if dataspec = "default" then
      assignLogStores stores rest maps
    else
      match lookupAssoc stores alias1 with
      | none => (maps, some (.badAlias dataspec alias1))
      | some store =>
        if isWriteLog store then
          match (trimQuotes dataspec).splitOn ":" with
          | [t] => assignLogStores stores rest (maps.1, (t, store) :: maps.2)
          | [n, u] => assignLogStores stores rest ((GetDataSpecifier n u, store) :: maps.1, maps.2)
          | _ => (maps, some (.badSpec dataspec))
        else (maps, some (.notWriteLog alias1))

/-- `Initialize` on the zero-valued manager (the state at process start or
after `Close`): open all stores with duplicate detection; require a `default`
alias or a single store; fall back `metadata` to the default store; record the
groupcache-declared instances (`setupGroupcache`, modelled from spec §4.5);
run both assignment loops; mark the manager set up; then resolve and check the
`labelgraph` store (an error there surfaces with `setup` already `true`, as in
the source).  Returns the final manager state with `createdMetadata` or the
error. -/
def InitializeM (backend : Backend) : ManagerT × Except Err Bool :=
  match openStores backend backend.stores {} with
  | (acc, some e) =>
    ({ setup := false, defaultKV := acc.defaultKV, defaultLog := acc.defaultLog,
       metadataStore := acc.metadataStore, stores := acc.stores }, .error e)
  | (acc, none) =>
    if acc.gotDefault = false ∧ backend.stores.length ≠ 1 then
      ({ setup := false, defaultKV := acc.defaultKV, defaultLog := acc.defaultLog,
         metadataStore := acc.metadataStore, stores := acc.stores }, .error .noDefaultStore)
    else
      let defaultKV := if acc.gotDefault then acc.defaultKV else acc.lastStore
      let createdDefault := if acc.gotDefault then acc.createdDefault else acc.lastCreated
      let metadataStore := if acc.gotMetadata then acc.metadataStore else defaultKV
      let createdMetadata := if acc.gotMetadata then acc.createdMetadata else createdDefault
      let gcache := backend.groupcacheInstances
      match assignKVStores acc.stores backend.kvStore ([], []) with
      | (maps1, some e) =>
        ({ setup := false, defaultKV := defaultKV, defaultLog := acc.defaultLog,
           metadataStore := metadataStore, stores := acc.stores,
           instanceStore := maps1.1, datatypeStore := maps1.2,
           gcacheSupported := gcache }, .error e)
      | (maps1, none) =>
        match assignLogStores acc.stores backend.logStore ([], []) with
        | (maps2, some e) =>
          ({ setup := false, defaultKV := defaultKV, defaultLog := acc.defaultLog,
             metadataStore := metadataStore, stores := acc.stores,
             instanceStore := maps1.1, datatypeStore := maps1.2,
             instanceLog := maps2.1, datatypeLog := maps2.2,
             gcacheSupported := gcache }, .error e)
        | (maps2, none) =>
          let m3 : ManagerT :=
            { setup := true, defaultKV := defaultKV, defaultLog := acc.defaultLog,
              metadataStore := metadataStore, stores := acc.stores,
              instanceStore := maps1.1, datatypeStore := maps1.2,
              instanceLog := maps2.1, datatypeLog := maps2.2,
              gcacheSupported := gcache, graphDB := none }
          match assignedStoreByType m3 "labelgraph" with
          | .error e => (m3, .error e)
          | .ok st =>
            match st with
            | some (.okv c) => ({ m3 with graphDB := some (.okv c) }, .ok createdMetadata)
            | _ => (m3, .error .graphNotOrdered)

/-- The spec's assignment lookup (§4.3 steps 1–3), written from the spec's
words for comparison with `GetAssignedStore`: the per-instance assignment if
one exists, else the per-datatype assignment if one exists, else the default
KV store, with an error when no default exists. -/
def specResolveStore (m : ManagerT) (dataname root typename : String) : Except Err StoreM :=
  match lookupAssoc m.instanceStore (GetDataSpecifier dataname root) with
  | some store => .ok store
  | none =>
    match lookupAssoc m.datatypeStore typename with
    | some store => .ok store
    | none =>
      match m.defaultKV with
      | some store => .ok store
      | none => .error .noDefaultKV

/-- The store opened from a configuration, defaulting to a generic KV store on
an open failure (used only under hypotheses that every configuration opens). -/
def openedStore (c : StoreConfigM) : StoreM :=
  match NewStoreM c with
  | .ok (s, _) => s
  | .error _ => .okv c

/-! ## Basic arithmetic facts about the byte encodings -/

theorem beBytes_length (w v : Nat) : (beBytes w v).length = w := by
  induction w generalizing v with
  | zero => rfl
  | succ w ih => simp [beBytes, ih]

theorem beBytes_lt (w v : Nat) (hv : v < 256 ^ w) : ∀ b ∈ beBytes w v, b < 256 := by
  induction w generalizing v with
  | zero => simp [beBytes]
  | succ w ih =>
    intro b hb
    simp only [beBytes, List.mem_cons] at hb
    rcases hb with h | h
    · subst h
      have : v < 256 ^ w * 256 := by
        calc v < 256 ^ (w + 1) := hv
        _ = 256 ^ w * 256 := by ring
      exact Nat.div_lt_of_lt_mul this
    · exact ih (v % 256 ^ w) (Nat.mod_lt _ (Nat.pos_pow_of_pos w (by norm_num))) b h

theorem beVal_beBytes (w v : Nat) (hv : v < 256 ^ w) : beVal (beBytes w v) = v := by
  induction w generalizing v with
  | zero =>
    simp [beBytes, beVal]
    omega
  | succ w ih =>
    have hmod : v % 256 ^ w < 256 ^ w := Nat.mod_lt _ (Nat.pos_pow_of_pos w (by norm_num))
    simp only [beBytes, beVal, beBytes_length, ih (v % 256 ^ w) hmod]
    exact Nat.div_add_mod' v (256 ^ w)

theorem beVal_lt (bs : List Nat) (hb : ∀ b ∈ bs, b < 256) : beVal bs < 256 ^ bs.length := by
  induction bs with
  | nil => simp [beVal]
  | cons b bs ih =>
    have hb' : b < 256 := hb b (by simp)
    have ih' := ih (fun x hx => hb x (List.mem_cons_of_mem _ hx))
    simp only [beVal, List.length_cons]
    have : b * 256 ^ bs.length + 256 ^ bs.length ≤ 256 * 256 ^ bs.length := by
      have : (b + 1) * 256 ^ bs.length ≤ 256 * 256 ^ bs.length :=
        Nat.mul_le_mul_right _ (by omega)
      nlinarith
    calc b * 256 ^ bs.length + beVal bs < b * 256 ^ bs.length + 256 ^ bs.length := by omega
    _ ≤ 256 * 256 ^ bs.length := this
    _ = 256 ^ (bs.length + 1) := by ring

theorem beBytes_beVal (bs : List Nat) (hb : ∀ b ∈ bs, b < 256) :
    beBytes bs.length (beVal bs) = bs := by
  induction bs with
  | nil => rfl
  | cons b bs ih =>
    have hb' : b < 256 := hb b (by simp)
    have hrest : ∀ x ∈ bs, x < 256 := fun x hx => hb x (List.mem_cons_of_mem _ hx)
    have hlt : beVal bs < 256 ^ bs.length := beVal_lt bs hrest
    have hpos : 0 < 256 ^ bs.length := Nat.pos_pow_of_pos _ (by norm_num)
    have hdiv : (b * 256 ^ bs.length + beVal bs) / 256 ^ bs.length = b := by
      rw [Nat.mul_comm b, Nat.mul_add_div hpos, Nat.div_eq_of_lt hlt]
      omega
    have hmod : (b * 256 ^ bs.length + beVal bs) % 256 ^ bs.length = beVal bs := by
      rw [Nat.mul_comm b, Nat.mul_add_mod, Nat.mod_eq_of_lt hlt]
    simp only [List.length_cons, beBytes, beVal, hdiv, hmod, List.cons.injEq]
    exact ⟨trivial, ih hrest⟩

theorem beVal_append (xs ys : List Nat) :
    beVal (xs ++ ys) = beVal xs * 256 ^ ys.length + beVal ys := by
  induction xs with
  | nil => simp [beVal]
  | cons x xs ih =>
    simp only [List.cons_append, beVal, List.append_eq, List.length_append, ih, pow_add]
    ring

theorem beVal_eq_zero (bs : List Nat) (h : beVal bs = 0) : ∀ b ∈ bs, b = 0 := by
  induction bs with
  | nil => simp
  | cons b bs ih =>
    simp only [beVal] at h
    have hb : b = 0 := by
      have := Nat.pos_pow_of_pos bs.length (show 0 < 256 by norm_num)
      nlinarith
    have hrest : beVal bs = 0 := by omega
    intro x hx
    rcases List.mem_cons.mp hx with h' | h'
    · omega
    · exact ih hrest x h'

/-! ## Lexicographic order versus numeric order -/

theorem bytesCmp_eq_compare (as : List Nat) : ∀ bs : List Nat, as.length = bs.length →
    (∀ b ∈ as, b < 256) → (∀ b ∈ bs, b < 256) →
    bytesCmp as bs = compare (beVal as) (beVal bs) := by
  induction as with
  | nil =>
    intro bs hlen _ _
    cases bs with
    | nil =>
      simp only [bytesCmp, beVal]
      exact (compare_eq_iff_eq.mpr rfl).symm
    | cons b bs => simp at hlen
  | cons a as ih =>
    intro bs hlen ha hb
    cases bs with
    | nil => simp at hlen
    | cons b bs =>
      have hlen' : as.length = bs.length := by simpa using hlen
      have ha' : ∀ x ∈ as, x < 256 := fun x hx => ha x (List.mem_cons_of_mem _ hx)
      have hb' : ∀ x ∈ bs, x < 256 := fun x hx => hb x (List.mem_cons_of_mem _ hx)
      have hva : beVal as < 256 ^ as.length := beVal_lt as ha'
      have hvb : beVal bs < 256 ^ bs.length := beVal_lt bs hb'
      simp only [bytesCmp, beVal, hlen']
      rcases Nat.lt_trichotomy a b with h | h | h
      · have hlt : a * 256 ^ bs.length + beVal as < b * 256 ^ bs.length + beVal bs := by
          have h1 : (a + 1) * 256 ^ bs.length ≤ b * 256 ^ bs.length :=
            Nat.mul_le_mul_right _ (by omega)
          rw [hlen'] at hva
          nlinarith
        simp [h, compare_lt_iff_lt.mpr hlt]
      · subst h
        have : compare (a * 256 ^ bs.length + beVal as) (a * 256 ^ bs.length + beVal bs) =
            compare (beVal as) (beVal bs) := by
          rcases Nat.lt_trichotomy (beVal as) (beVal bs) with h' | h' | h'
          · rw [compare_lt_iff_lt.mpr h', compare_lt_iff_lt.mpr (show
              a * 256 ^ bs.length + beVal as < a * 256 ^ bs.length + beVal bs by omega)]
          · rw [h', compare_eq_iff_eq.mpr (rfl : beVal bs = beVal bs),
              compare_eq_iff_eq.mpr (rfl : a * 256 ^ bs.length + beVal bs =
                a * 256 ^ bs.length + beVal bs)]
          · rw [compare_gt_iff_gt.mpr h', compare_gt_iff_gt.mpr (show
              a * 256 ^ bs.length + beVal bs < a * 256 ^ bs.length + beVal as by omega)]
        simp only [Nat.lt_irrefl, if_false, ih bs hlen' ha' hb', this]
      · have hgt : b * 256 ^ bs.length + beVal bs < a * 256 ^ bs.length + beVal as := by
          have h1 : (b + 1) * 256 ^ bs.length ≤ a * 256 ^ bs.length :=
            Nat.mul_le_mul_right _ (by omega)
          nlinarith
        have hnlt : ¬ a < b := by omega
        simp [hnlt, h, compare_gt_iff_gt.mpr hgt]

theorem bytesLE_iff (as bs : List Nat) (hlen : as.length = bs.length)
    (ha : ∀ b ∈ as, b < 256) (hb : ∀ b ∈ bs, b < 256) :
    bytesLE as bs = true ↔ beVal as ≤ beVal bs := by
  unfold bytesLE
  rw [bytesCmp_eq_compare as bs hlen ha hb]
  rcases Nat.lt_trichotomy (beVal as) (beVal bs) with h | h | h
  · simp [compare_lt_iff_lt.mpr h]
    omega
  · rw [h, compare_eq_iff_eq.mpr (rfl : beVal bs = beVal bs)]
    simp
  · simp [compare_gt_iff_gt.mpr h]
    omega

/-! ## Shape and round-trip facts about the labelsz keys -/

theorem NewTypeSizeLabelTKey_cons (i sz label : Nat) :
    NewTypeSizeLabelTKey i sz label =
      83 :: i % 256 ::
        (beBytes 4 (4294967295 - sz % 4294967296) ++ beBytes 8 (label % 18446744073709551616)) :=
  rfl

theorem NewTypeSizeLabelTKey_length (i sz label : Nat) :
    (NewTypeSizeLabelTKey i sz label).length = 14 := by
  simp [NewTypeSizeLabelTKey, beBytes_length]

theorem NewTypeSizeLabelTKey_bytes (i sz label : Nat) :
    ∀ b ∈ NewTypeSizeLabelTKey i sz label, b < 256 := by
  intro b hb
  simp only [NewTypeSizeLabelTKey, List.mem_cons, List.mem_append] at hb
  rcases hb with h | h | h | h
  · omega
  · have := Nat.mod_lt i (show 0 < 256 by norm_num)
    omega
  · exact beBytes_lt 4 _ (by omega) b h
  · exact beBytes_lt 8 _ (Nat.mod_lt _ (by norm_num)) b h

theorem DecodeTypeSizeLabelTKey_encode (i sz label : Nat) (hi : i < 256)
    (hsz : sz < 4294967296) (hl : label < 18446744073709551616) :
    DecodeTypeSizeLabelTKey (NewTypeSizeLabelTKey i sz label) = some (i, sz, label) := by
  have hinv : 4294967295 - sz % 4294967296 < 4294967296 := by omega
  have hlab : label % 18446744073709551616 = label := Nat.mod_eq_of_lt hl
  have h4 : (beBytes 4 (4294967295 - sz % 4294967296)).length = 4 := beBytes_length _ _
  simp only [NewTypeSizeLabelTKey, DecodeTypeSizeLabelTKey]
  rw [if_pos]
  · rw [List.take_left' h4, List.drop_left' h4]
    rw [beVal_beBytes 4 _ hinv, beVal_beBytes 8 _ (by omega)]
    have hieq : i % 256 = i := Nat.mod_eq_of_lt hi
    have hszeq : sz % 4294967296 = sz := Nat.mod_eq_of_lt hsz
    rw [hieq, hszeq, hlab]
    simp only [Option.some.injEq, Prod.mk.injEq]
    exact ⟨trivial, by omega, trivial⟩
  · exact ⟨trivial, by simp [beBytes_length]⟩

theorem DecodeTypeSizeLabelTKey_some_shape (k : List Nat) (it sz lab : Nat)
    (h : DecodeTypeSizeLabelTKey k = some (it, sz, lab)) :
    ∃ rest, k = 83 :: it :: rest ∧ rest.length = 12 ∧
      sz = 4294967295 - beVal (rest.take 4) ∧ lab = beVal (rest.drop 4) := by
  match k with
  | [] => simp [DecodeTypeSizeLabelTKey] at h
  | [tag] => simp [DecodeTypeSizeLabelTKey] at h
  | tag :: i :: rest =>
    simp only [DecodeTypeSizeLabelTKey] at h
    split at h
    · rename_i hcond
      obtain ⟨rfl, hlen⟩ := hcond
      simp only [Option.some.injEq, Prod.mk.injEq] at h
      obtain ⟨rfl, rfl, rfl⟩ := h
      exact ⟨rest, rfl, hlen, rfl, rfl⟩
    · simp at h

theorem wfKey_iff (i : Nat) (k : List Nat) :
    wfKey i k = true ↔ ∃ sz label, i < 256 ∧ sz < 4294967296 ∧
      label < 18446744073709551616 ∧ k = NewTypeSizeLabelTKey i sz label := by
  constructor
  · intro h
    unfold wfKey at h
    rw [Bool.and_eq_true] at h
    obtain ⟨hall, hdec⟩ := h
    have hall' : ∀ x ∈ k, x < 256 := by simpa [List.all_eq_true] using hall
    cases hd : DecodeTypeSizeLabelTKey k with
    | none => rw [hd] at hdec; simp at hdec
    | some v =>
      obtain ⟨it, sz, lab⟩ := v
      rw [hd] at hdec
      simp only [beq_iff_eq] at hdec
      subst hdec
      obtain ⟨rest, hk, hlen, hsz, hlab⟩ := DecodeTypeSizeLabelTKey_some_shape k it sz lab hd
      have hit : it < 256 := hall' it (by rw [hk]; simp)
      have hrest : ∀ x ∈ rest, x < 256 := fun x hx => hall' x (by rw [hk]; simp [hx])
      have ht4len : (rest.take 4).length = 4 := by rw [List.length_take]; omega
      have hd8len : (rest.drop 4).length = 8 := by rw [List.length_drop]; omega
      have ht4lt : beVal (rest.take 4) < 4294967296 := by
        have := beVal_lt (rest.take 4) (fun x hx => hrest x (List.mem_of_mem_take hx))
        rw [ht4len] at this
        norm_num at this
        exact this
      have hd8lt : beVal (rest.drop 4) < 18446744073709551616 := by
        have := beVal_lt (rest.drop 4) (fun x hx => hrest x (List.mem_of_mem_drop hx))
        rw [hd8len] at this
        norm_num at this
        exact this
      refine ⟨sz, lab, hit, by omega, by omega, ?_⟩
      have hszmod : sz % 4294967296 = sz := Nat.mod_eq_of_lt (by omega)
      have hlabmod : lab % 18446744073709551616 = lab := Nat.mod_eq_of_lt (by omega)
      have hinveq : 4294967295 - sz = beVal (rest.take 4) := by omega
      have hbe4 : beBytes 4 (beVal (rest.take 4)) = rest.take 4 := by
        have := beBytes_beVal (rest.take 4) (fun x hx => hrest x (List.mem_of_mem_take hx))
        rwa [ht4len] at this
      have hbe8 : beBytes 8 (beVal (rest.drop 4)) = rest.drop 4 := by
        have := beBytes_beVal (rest.drop 4) (fun x hx => hrest x (List.mem_of_mem_drop hx))
        rwa [hd8len] at this
      rw [hk, NewTypeSizeLabelTKey_cons, Nat.mod_eq_of_lt hit, hszmod, hlabmod, hinveq,
        hbe4, hlab, hbe8, List.take_append_drop]
  · rintro ⟨sz, label, hi, hsz, hl, rfl⟩
    unfold wfKey
    rw [Bool.and_eq_true]
    constructor
    · rw [List.all_eq_true]
      intro x hx
      simpa using NewTypeSizeLabelTKey_bytes i sz label x hx
    · rw [DecodeTypeSizeLabelTKey_encode i sz label hi hsz hl]
      simp

theorem decodedLS_encode (i sz label : Nat) (hi : i < 256) (hsz : sz < 4294967296)
    (hl : label < 18446744073709551616) :
    decodedLS (NewTypeSizeLabelTKey i sz label) = ⟨label, sz⟩ := by
  unfold decodedLS
  rw [DecodeTypeSizeLabelTKey_encode i sz label hi hsz hl]

theorem topVisit_collect (i n : Nat) (keys : List (List Nat)) :
    ∀ r : Nat, r < n → (∀ k ∈ keys.take (n - r), wfKey i k = true) →
    topVisit i n keys r = .ok ((keys.take (n - r)).map decodedLS) := by
  induction keys with
  | nil => intro r _ _; simp [topVisit]
  | cons k rest ih =>
    intro r hr hwf
    have hsucc : n - r = (n - r - 1) + 1 := by omega
    have hk : wfKey i k = true := by
      apply hwf
      rw [hsucc, List.take_succ_cons]
      exact List.mem_cons_self _ _
    obtain ⟨sz, lab, hi, hsz, hl, hke⟩ := (wfKey_iff i k).mp hk
    have hdec : DecodeTypeSizeLabelTKey k = some (i, sz, lab) := by
      rw [hke]; exact DecodeTypeSizeLabelTKey_encode i sz lab hi hsz hl
    have hdls : decodedLS k = ⟨lab, sz⟩ := by unfold decodedLS; rw [hdec]
    by_cases hstop : r + 1 ≥ n
    · have h1 : n - r = 1 := by omega
      rw [h1, List.take_succ_cons, List.take_zero]
      simp [topVisit, hdec, hstop, hdls]
    · have h1 : n - r = (n - (r + 1)) + 1 := by omega
      have hwf' : ∀ x ∈ rest.take (n - (r + 1)), wfKey i x = true := by
        intro x hx
        apply hwf
        rw [h1, List.take_succ_cons]
        exact List.mem_cons_of_mem _ hx
      rw [h1, List.take_succ_cons]
      simp [topVisit, hdec, hstop, ih (r + 1) (by omega) hwf', hdls, Except.map]

theorem thrVisit_eq_topVisit (i n : Nat) (keys : List (List Nat)) :
    ∀ r : Nat, r < n → thrVisit i 0 0 n keys r r = topVisit i n keys r := by
  induction keys with
  | nil => intro r _; simp [thrVisit, topVisit]
  | cons k rest ih =>
    intro r hr
    cases hdec : DecodeTypeSizeLabelTKey k with
    | none => simp [thrVisit, topVisit, hdec]
    | some v =>
      obtain ⟨it, sz, lab⟩ := v
      by_cases hit : it = i
      · subst hit
        have hsz0 : ¬ sz < 0 := by omega
        have hwin : (0 : Int) ≤ (r : Int) ∧ (r : Int) < 0 + (n : Int) := by
          constructor
          · positivity
          · omega
        have hnr : ¬ n ≤ r := by omega
        by_cases hstop : r + 1 = n
        · have hstop2 : r + 1 ≥ n := by omega
          simp [thrVisit, topVisit, hdec, hsz0, hwin, hstop, hstop2, hnr]
        · have hstop2 : ¬ r + 1 ≥ n := by omega
          simp [thrVisit, topVisit, hdec, hsz0, hwin, hstop, hstop2, hnr,
            ih (r + 1) (by omega)]
      · simp [thrVisit, topVisit, hdec, hit]

theorem thrVisit_len (i ms : Nat) (off : Int) (n : Nat) (keys : List (List Nat)) :
    ∀ r s : Nat, s < n → ∀ l, thrVisit i ms off n keys r s = .ok l → l.length ≤ n - s := by
  induction keys with
  | nil =>
    intro r s _ l h
    simp only [thrVisit, Except.ok.injEq] at h
    subst h
    simp
  | cons k rest ih =>
    intro r s hs l h
    simp only [thrVisit] at h
    cases hdec : DecodeTypeSizeLabelTKey k with
    | none => simp [hdec] at h
    | some v =>
      obtain ⟨it, sz, lab⟩ := v
      simp only [hdec] at h
      by_cases hit : it = i
      · rw [if_pos hit] at h
        by_cases hms : sz < ms
        · rw [if_pos hms] at h
          simp only [Except.ok.injEq] at h
          subst h
          simp
        · rw [if_neg hms] at h
          by_cases hwin : off ≤ (r : Int) ∧ (r : Int) < off + (n : Int)
          · rw [if_pos hwin] at h
            by_cases hstop : s + 1 = n
            · rw [if_pos hstop] at h
              simp only [Except.ok.injEq] at h
              subst h
              simp
              omega
            · rw [if_neg hstop] at h
              cases hrec : thrVisit i ms off n rest (r + 1) (s + 1) with
              | error e => rw [hrec] at h; exact absurd h (by simp [Except.map])
              | ok l2 =>
                rw [hrec] at h
                simp only [Except.map, Except.ok.injEq] at h
                subst h
                have := ih (r + 1) (s + 1) (by omega) l2 hrec
                simp only [List.length_cons]
                omega
          · rw [if_neg hwin] at h
            have := ih (r + 1) s hs l h
            omega
      · rw [if_neg hit] at h
        exact absurd h (by simp)

theorem thrVisit_all (i n : Nat) (keys : List (List Nat)) :
    ∀ s : Nat, s + keys.length ≤ n →
    (∀ k ∈ keys, ∃ sz lab, DecodeTypeSizeLabelTKey k = some (i, sz, lab)) →
    thrVisit i 0 0 n keys s s = .ok (keys.map decodedLS) := by
  induction keys with
  | nil => intro s _ _; simp [thrVisit]
  | cons k rest ih =>
    intro s hlen hwf
    obtain ⟨sz, lab, hdec⟩ := hwf k (List.mem_cons_self _ _)
    have hdls : decodedLS k = ⟨lab, sz⟩ := by unfold decodedLS; rw [hdec]
    have hs : s < n := by simp only [List.length_cons] at hlen; omega
    have hsz0 : ¬ sz < 0 := by omega
    have hwin : (0 : Int) ≤ (s : Int) ∧ (s : Int) < 0 + (n : Int) := by
      constructor
      · positivity
      · omega
    by_cases hstop : s + 1 = n
    · have hrest : rest = [] := by
        apply List.eq_nil_of_length_eq_zero
        simp only [List.length_cons] at hlen
        omega
      subst hrest
      simp [thrVisit, hdec, hsz0, hwin, hstop, hdls, hs]
    · have hlen2 : (s + 1) + rest.length ≤ n := by
        simp only [List.length_cons] at hlen
        omega
      simp [thrVisit, hdec, hsz0, hwin, hstop, hdls, hs, Except.map,
        ih (s + 1) hlen2 (fun x hx => hwf x (List.mem_cons_of_mem _ hx))]

theorem topVisit_mem (i n : Nat) (keys : List (List Nat)) :
    ∀ r l, topVisit i n keys r = .ok l → ∀ e ∈ l,
      ∃ k ∈ keys, DecodeTypeSizeLabelTKey k = some (i, e.Size, e.Label) := by
  induction keys with
  | nil =>
    intro r l h e he
    simp only [topVisit, Except.ok.injEq] at h
    subst h
    simp at he
  | cons k rest ih =>
    intro r l h e he
    simp only [topVisit] at h
    cases hdec : DecodeTypeSizeLabelTKey k with
    | none => simp [hdec] at h
    | some v =>
      obtain ⟨it, sz, lab⟩ := v
      simp only [hdec] at h
      by_cases hit : it = i
      · subst hit
        rw [if_pos rfl] at h
        by_cases hstop : r + 1 ≥ n
        · rw [if_pos hstop] at h
          simp only [Except.ok.injEq] at h
          subst h
          simp only [List.mem_singleton] at he
          subst he
          exact ⟨k, List.mem_cons_self _ _, hdec⟩
        · rw [if_neg hstop] at h
          cases hrec : topVisit it n rest (r + 1) with
          | error e2 => rw [hrec] at h; exact absurd h (by simp [Except.map])
          | ok l2 =>
            rw [hrec] at h
            simp only [Except.map, Except.ok.injEq] at h
            subst h
            rcases List.mem_cons.mp he with he2 | he2
            · subst he2
              exact ⟨k, List.mem_cons_self _ _, hdec⟩
            · obtain ⟨k2, hk2, hd2⟩ := ih (r + 1) l2 hrec e he2
              exact ⟨k2, List.mem_cons_of_mem _ hk2, hd2⟩
      · rw [if_neg hit] at h
        exact absurd h (by simp)

theorem thrVisit_mem (i ms : Nat) (off : Int) (n : Nat) (keys : List (List Nat)) :
    ∀ r s l, thrVisit i ms off n keys r s = .ok l → ∀ e ∈ l,
      ∃ k ∈ keys, DecodeTypeSizeLabelTKey k = some (i, e.Size, e.Label) := by
  induction keys with
  | nil =>
    intro r s l h e he
    simp only [thrVisit, Except.ok.injEq] at h
    subst h
    simp at he
  | cons k rest ih =>
    intro r s l h e he
    simp only [thrVisit] at h
    cases hdec : DecodeTypeSizeLabelTKey k with
    | none => simp [hdec] at h
    | some v =>
      obtain ⟨it, sz, lab⟩ := v
      simp only [hdec] at h
      by_cases hit : it = i
      · subst hit
        rw [if_pos rfl] at h
        by_cases hms : sz < ms
        · rw [if_pos hms] at h
          simp only [Except.ok.injEq] at h
          subst h
          simp at he
        · rw [if_neg hms] at h
          by_cases hwin : off ≤ (r : Int) ∧ (r : Int) < off + (n : Int)
          · rw [if_pos hwin] at h
            by_cases hstop : s + 1 = n
            · rw [if_pos hstop] at h
              simp only [Except.ok.injEq] at h
              subst h
              simp only [List.mem_singleton] at he
              subst he
              exact ⟨k, List.mem_cons_self _ _, hdec⟩
            · rw [if_neg hstop] at h
              cases hrec : thrVisit it ms off n rest (r + 1) (s + 1) with
              | error e2 => rw [hrec] at h; exact absurd h (by simp [Except.map])
              | ok l2 =>
                rw [hrec] at h
                simp only [Except.map, Except.ok.injEq] at h
                subst h
                rcases List.mem_cons.mp he with he2 | he2
                · subst he2
                  exact ⟨k, List.mem_cons_self _ _, hdec⟩
                · obtain ⟨k2, hk2, hd2⟩ := ih (r + 1) (s + 1) l2 hrec e he2
                  exact ⟨k2, List.mem_cons_of_mem _ hk2, hd2⟩
          · rw [if_neg hwin] at h
            obtain ⟨k2, hk2, hd2⟩ := ih (r + 1) s l h e he
            exact ⟨k2, List.mem_cons_of_mem _ hk2, hd2⟩
      · rw [if_neg hit] at h
        exact absurd h (by simp)

/-! ## The scanned size-key span -/

theorem beVal_NewTypeSizeLabelTKey (i sz lab : Nat) (hi : i < 256)
    (hsz : sz < 4294967296) (hl : lab < 18446744073709551616) :
    beVal (NewTypeSizeLabelTKey i sz lab) =
      83 * 256 ^ 13 + i * 256 ^ 12 + ((4294967295 - sz) * 256 ^ 8 + lab) := by
  have h4 : (beBytes 4 (4294967295 - sz % 4294967296)).length = 4 := beBytes_length _ _
  have h8 : (beBytes 8 (lab % 18446744073709551616)).length = 8 := beBytes_length _ _
  have hcons : ∀ (b : Nat) (bs : List Nat), beVal (b :: bs) = b * 256 ^ bs.length + beVal bs :=
    fun b bs => rfl
  have hb4 : beVal (beBytes 4 (4294967295 - sz % 4294967296)) = 4294967295 - sz := by
    rw [beVal_beBytes 4 _ (by omega), Nat.mod_eq_of_lt hsz]
  have hb8 : beVal (beBytes 8 (lab % 18446744073709551616)) = lab := by
    have hm : lab % 18446744073709551616 < 256 ^ 8 := by
      norm_num
      omega
    rw [beVal_beBytes 8 _ hm, Nat.mod_eq_of_lt hl]
  rw [NewTypeSizeLabelTKey_cons, hcons, hcons, beVal_append, hb4, hb8, Nat.mod_eq_of_lt hi]
  simp only [List.length_cons, List.length_append, h4, h8]
  norm_num
  ring

theorem enc_in_range (i sz lab : Nat) (hi : i < 256) (hsz : sz ≤ 4294967294)
    (hl : lab < 18446744073709551616) :
    bytesLE (begTKey i) (NewTypeSizeLabelTKey i sz lab) = true ∧
    bytesLE (NewTypeSizeLabelTKey i sz lab) (endTKey i) = true := by
  have hben : beVal (NewTypeSizeLabelTKey i sz lab) =
      83 * 256 ^ 13 + i * 256 ^ 12 + ((4294967295 - sz) * 256 ^ 8 + lab) :=
    beVal_NewTypeSizeLabelTKey i sz lab hi (by omega) hl
  have hbeg : beVal (begTKey i) =
      83 * 256 ^ 13 + i * 256 ^ 12 + ((4294967295 - 4294967294) * 256 ^ 8 + 0) :=
    beVal_NewTypeSizeLabelTKey i 4294967294 0 hi (by norm_num) (by norm_num)
  have hend : beVal (endTKey i) =
      83 * 256 ^ 13 + i * 256 ^ 12 + ((4294967295 - 0) * 256 ^ 8 + 18446744073709551615) :=
    beVal_NewTypeSizeLabelTKey i 0 18446744073709551615 hi (by norm_num) (by norm_num)
  have hlen1 : (begTKey i).length = (NewTypeSizeLabelTKey i sz lab).length := by
    rw [NewTypeSizeLabelTKey_length, begTKey, NewTypeSizeLabelTKey_length]
  have hlen2 : (NewTypeSizeLabelTKey i sz lab).length = (endTKey i).length := by
    rw [NewTypeSizeLabelTKey_length, endTKey, NewTypeSizeLabelTKey_length]
  constructor
  · rw [bytesLE_iff _ _ hlen1 (NewTypeSizeLabelTKey_bytes _ _ _)
      (NewTypeSizeLabelTKey_bytes _ _ _), hbeg, hben]
    have h8 : (256 : Nat) ^ 8 = 18446744073709551616 := by norm_num
    rw [h8]
    omega
  · rw [bytesLE_iff _ _ hlen2 (NewTypeSizeLabelTKey_bytes _ _ _)
      (NewTypeSizeLabelTKey_bytes _ _ _), hben, hend]
    have h8 : (256 : Nat) ^ 8 = 18446744073709551616 := by norm_num
    rw [h8]
    omega

theorem begTKey_cons (i : Nat) (hi : i < 256) :
    begTKey i = 83 :: i :: [0, 0, 0, 1, 0, 0, 0, 0, 0, 0, 0, 0] := by
  have e1 : beBytes 4 (4294967295 - 4294967294 % 4294967296) = [0, 0, 0, 1] := by rfl
  have e2 : beBytes 8 (0 % 18446744073709551616) = [0, 0, 0, 0, 0, 0, 0, 0] := by rfl
  show 83 :: i % 256 :: (beBytes 4 (4294967295 - 4294967294 % 4294967296) ++
    beBytes 8 (0 % 18446744073709551616)) = _
  rw [e1, e2, Nat.mod_eq_of_lt hi]
  rfl

theorem endTKey_cons (i : Nat) (hi : i < 256) :
    endTKey i = 83 :: i :: [255, 255, 255, 255, 255, 255, 255, 255, 255, 255, 255, 255] := by
  have e1 : beBytes 4 (4294967295 - 0 % 4294967296) = [255, 255, 255, 255] := by rfl
  have e2 : beBytes 8 (18446744073709551615 % 18446744073709551616) =
      [255, 255, 255, 255, 255, 255, 255, 255] := by rfl
  show 83 :: i % 256 :: (beBytes 4 (4294967295 - 0 % 4294967296) ++
    beBytes 8 (18446744073709551615 % 18446744073709551616)) = _
  rw [e1, e2, Nat.mod_eq_of_lt hi]
  rfl

theorem in_range_not_maxcount (i : Nat) (hi : i < 256) (k : List Nat) (it sz lab : Nat)
    (hdec : DecodeTypeSizeLabelTKey k = some (it, sz, lab))
    (hbeg : bytesLE (begTKey i) k = true) (hend : bytesLE k (endTKey i) = true) :
    sz ≠ 4294967295 := by
  intro hszeq
  obtain ⟨rest, hk, hlen, hszdef, _⟩ := DecodeTypeSizeLabelTKey_some_shape k it sz lab hdec
  have hx0 : beVal (rest.take 4) = 0 := by omega
  have hzero : ∀ b ∈ rest.take 4, b = 0 := beVal_eq_zero _ hx0
  have ht4len : (rest.take 4).length = 4 := by rw [List.length_take]; omega
  have ht4 : rest.take 4 = [0, 0, 0, 0] := by
    have : rest.take 4 = List.replicate 4 0 := by
      rw [List.eq_replicate_iff]
      exact ⟨ht4len, hzero⟩
    rw [this]
    rfl
  have hrest2 : rest = 0 :: 0 :: 0 :: 0 :: rest.drop 4 := by
    conv_lhs => rw [← List.take_append_drop 4 rest]
    rw [ht4]
    rfl
  rw [hk, hrest2] at hbeg hend
  rw [begTKey_cons i hi] at hbeg
  rw [endTKey_cons i hi] at hend
  rcases Nat.lt_trichotomy i it with hii | hii | hii
  · have h1 : ¬ it < i := by omega
    simp [bytesLE, bytesCmp, h1, hii] at hend
  · subst hii
    simp [bytesLE, bytesCmp] at hbeg
  · have h1 : ¬ i < it := by omega
    simp [bytesLE, bytesCmp, h1, hii] at hbeg

theorem wf_key_order (i : Nat) (k1 k2 : List Nat) (h1 : wfKey i k1 = true)
    (h2 : wfKey i k2 = true) (hlt : bytesCmp k1 k2 = Ordering.lt) :
    (decodedLS k2).Size < (decodedLS k1).Size ∨
      ((decodedLS k1).Size = (decodedLS k2).Size ∧
        (decodedLS k1).Label < (decodedLS k2).Label) := by
  obtain ⟨sz1, lab1, hi, hsz1, hl1, hk1⟩ := (wfKey_iff i k1).mp h1
  obtain ⟨sz2, lab2, _, hsz2, hl2, hk2⟩ := (wfKey_iff i k2).mp h2
  subst hk1
  subst hk2
  rw [decodedLS_encode i sz1 lab1 hi hsz1 hl1, decodedLS_encode i sz2 lab2 hi hsz2 hl2]
  rw [bytesCmp_eq_compare _ _ (by rw [NewTypeSizeLabelTKey_length,
      NewTypeSizeLabelTKey_length]) (NewTypeSizeLabelTKey_bytes _ _ _)
      (NewTypeSizeLabelTKey_bytes _ _ _)] at hlt
  have hv := compare_lt_iff_lt.mp hlt
  rw [beVal_NewTypeSizeLabelTKey i sz1 lab1 hi hsz1 hl1,
    beVal_NewTypeSizeLabelTKey i sz2 lab2 hi hsz2 hl2] at hv
  have h8 : (256 : Nat) ^ 8 = 18446744073709551616 := by norm_num
  rw [h8] at hv
  simp only []
  omega

/-! ## Claim theorems: labelsz queries -/

/-- C3: `GetCountElementType(ctx, label, i)` (the store get being total in the
model) returns count 0 with no error when no record value is present; it
returns an internal-consistency error if and only if a present value's length
is not exactly 4 bytes; otherwise it returns the value decoded as a
little-endian u32. -/
theorem getCount_spec (store : KVStoreM) (label i : Nat) :
    (kvGet store (NewTypeLabelTKey i label) = none →
      GetCountElementType store label i = .ok 0) ∧
    (∀ v, kvGet store (NewTypeLabelTKey i label) = some v →
      (((∃ e, GetCountElementType store label i = .error e) ↔ v.length ≠ 4) ∧
       (v.length = 4 → GetCountElementType store label i = .ok (leVal v)))) := by
  constructor
  · intro h
    simp [GetCountElementType, h]
  · intro v hv
    by_cases hl : v.length = 4
    · have hrun : GetCountElementType store label i = .ok (leVal v) := by
        simp [GetCountElementType, hv, hl]
      refine ⟨⟨?_, ?_⟩, fun _ => hrun⟩
      · rintro ⟨e, he⟩
        rw [hrun] at he
        exact absurd he (by simp)
      · intro hne
        exact absurd hl hne
    · have hrun : GetCountElementType store label i =
          .error (.badSizeValue i label v.length) := by
        simp [GetCountElementType, hv, hl]
      exact ⟨⟨fun _ => hl, fun _ => ⟨_, hrun⟩⟩, fun h4 => absurd h4 hl⟩

/-- Witness for C3 at a concrete store holding a 4-byte little-endian value. -/
theorem getCount_spec_witness :
    kvGet [(NewTypeLabelTKey 2 7, [9, 0, 0, 0])] (NewTypeLabelTKey 2 7) =
      some [9, 0, 0, 0] ∧
    GetCountElementType [(NewTypeLabelTKey 2 7, [9, 0, 0, 0])] 7 2 =
      .ok (leVal [9, 0, 0, 0]) :=
  ⟨by decide,
    ((getCount_spec [(NewTypeLabelTKey 2 7, [9, 0, 0, 0])] 7 2).2 [9, 0, 0, 0]
      (by decide)).2 (by decide)⟩

set_option maxRecDepth 4000 in
/-- C1 (evaluation at the failing input): `GetLabelsByThreshold` applies no
10,000 cap — requesting `num = 10001` over an index with 10001 qualifying
records returns all 10001 of them, exceeding `MaxLabelsReturned`. -/
theorem threshold_no_cap :
    ∃ lsz, GetLabelsByThreshold c1Store 1 0 0 10001 = .ok lsz ∧
      lsz.length = 10001 ∧ MaxLabelsReturned < lsz.length := by
  have hwf : ∀ kv ∈ c1Store, ∃ l, l < 10001 ∧ kv = (NewTypeSizeLabelTKey 1 5 l, []) := by
    intro kv hkv
    unfold c1Store at hkv
    simp only [List.mem_map, List.mem_range] at hkv
    obtain ⟨l, hl, rfl⟩ := hkv
    exact ⟨l, hl, rfl⟩
  have hfilter : (c1Store.filter fun kv =>
      bytesLE (begTKey 1) kv.1 && bytesLE kv.1 (endTKey 1)) = c1Store := by
    rw [List.filter_eq_self]
    intro kv hkv
    obtain ⟨l, hl, rfl⟩ := hwf kv hkv
    have hr := enc_in_range 1 5 l (by norm_num) (by norm_num) (by omega)
    simp [hr.1, hr.2]
  have hkeys : processRangeKeys c1Store (begTKey 1) (endTKey 1) = c1Store.map (·.1) := by
    unfold processRangeKeys
    rw [hfilter]
  have hlen : (c1Store.map (·.1)).length = 10001 := by
    unfold c1Store
    simp
  have hdec : ∀ k ∈ c1Store.map (·.1),
      ∃ sz lab, DecodeTypeSizeLabelTKey k = some (1, sz, lab) := by
    intro k hk
    simp only [List.mem_map] at hk
    obtain ⟨kv, hkv, rfl⟩ := hk
    obtain ⟨l, hl, rfl⟩ := hwf kv hkv
    exact ⟨5, l, DecodeTypeSizeLabelTKey_encode 1 5 l (by norm_num) (by norm_num) (by omega)⟩
  have hle : 0 + (c1Store.map (·.1)).length ≤ 10001 := by
    rw [hlen]
  have hv1 := thrVisit_all 1 10001 (c1Store.map (·.1))
  have hvisit := hv1 0 hle hdec
  refine ⟨(c1Store.map (·.1)).map decodedLS, ?_, ?_, ?_⟩
  · unfold GetLabelsByThreshold
    rw [if_neg (by norm_num), if_neg (by norm_num), hkeys]
    have ht : ((10001 : Int)).toNat = 10001 := rfl
    rw [ht]
    exact hvisit
  · rw [List.length_map, hlen]
  · rw [List.length_map, hlen]
    norm_num [MaxLabelsReturned]

/-- C4: for `n ≥ 1`, `GetTopElementType(ctx, n, i)` returns exactly the first
`n` entries of `GetLabelsByThreshold(ctx, i, 0, 0, n)` (and the same error on
the same malformed store): with threshold 0 the early stop never fires, offset
0 skips nothing, and both scan the same key range in the same order. -/
theorem top_eq_first_threshold (store : KVStoreM) (n : Int) (i : Nat) (h : 1 ≤ n) :
    GetTopElementType store n i =
      Except.map (fun l => l.take n.toNat) (GetLabelsByThreshold store i 0 0 n) := by
  have hn0 : ¬ n < 0 := by omega
  have hn1 : ¬ n = 0 := by omega
  have hpos : 0 < n.toNat := by omega
  unfold GetTopElementType GetLabelsByThreshold
  rw [if_neg hn0, if_neg hn1, if_neg hn1, if_neg hn0]
  rw [← thrVisit_eq_topVisit i n.toNat (processRangeKeys store (begTKey i) (endTKey i)) 0 hpos]
  cases hres : thrVisit i 0 0 n.toNat (processRangeKeys store (begTKey i) (endTKey i)) 0 0 with
  | error e => simp [Except.map]
  | ok l =>
    have hlen := thrVisit_len i 0 0 n.toNat _ 0 0 hpos l hres
    simp only [Except.map]
    rw [List.take_of_length_le (by omega)]

/-- Witness for C4 at the empty store and `n = 1`. -/
theorem top_eq_first_threshold_witness :
    GetTopElementType [] 1 0 =
      Except.map (fun l => l.take (1 : Int).toNat) (GetLabelsByThreshold [] 0 0 0 1) :=
  top_eq_first_threshold [] 1 0 (by norm_num)

/-- C2: for `n ≥ 1`, over an ascending-ordered store whose scanned span (up to
the first `n` keys) holds well-formed size keys of index type `i`,
`GetTopElementType(ctx, n, i)` returns exactly the decoded first `n` keys of
the ascending range scan (so at most `n` entries, and the scan never looks
past the `n`-th key), and the result is ordered by descending count with ties
by ascending label. -/
theorem top_spec (store : KVStoreM) (n : Int) (i : Nat) (h1 : 1 ≤ n)
    (hsorted : store.Pairwise fun a b => bytesCmp a.1 b.1 = Ordering.lt)
    (hwf : ∀ k ∈ (processRangeKeys store (begTKey i) (endTKey i)).take n.toNat,
      wfKey i k = true) :
    GetTopElementType store n i =
      .ok (((processRangeKeys store (begTKey i) (endTKey i)).take n.toNat).map decodedLS) ∧
    (((processRangeKeys store (begTKey i) (endTKey i)).take n.toNat).map decodedLS).length
      ≤ n.toNat ∧
    (((processRangeKeys store (begTKey i) (endTKey i)).take n.toNat).map decodedLS).Pairwise
      (fun a b => b.Size < a.Size ∨ (a.Size = b.Size ∧ a.Label < b.Label)) := by
  have hn0 : ¬ n < 0 := by omega
  have hn1 : ¬ n = 0 := by omega
  have hpos : 0 < n.toNat := by omega
  refine ⟨?_, ?_, ?_⟩
  · unfold GetTopElementType
    rw [if_neg hn0, if_neg hn1]
    exact topVisit_collect i n.toNat (processRangeKeys store (begTKey i) (endTKey i)) 0
      hpos hwf
  · simp only [List.length_map, List.length_take]
    omega
  · have hkeysPW : (processRangeKeys store (begTKey i) (endTKey i)).Pairwise
        (fun a b => bytesCmp a b = Ordering.lt) := by
      unfold processRangeKeys
      refine List.Pairwise.map _ (fun a b hab => hab) (hsorted.filter _)
    have htake : ((processRangeKeys store (begTKey i) (endTKey i)).take n.toNat).Pairwise
        (fun a b => bytesCmp a b = Ordering.lt) :=
      hkeysPW.sublist (List.take_sublist _ _)
    rw [List.pairwise_map]
    refine htake.imp_of_mem ?_
    intro a b ha hb hab
    exact wf_key_order i a b (hwf a ha) (hwf b hb) hab

/-- Witness for C2 at a one-record store. -/
theorem top_spec_witness :
    GetTopElementType [(NewTypeSizeLabelTKey 1 3 5, [])] 2 1 =
      .ok (((processRangeKeys [(NewTypeSizeLabelTKey 1 3 5, [])] (begTKey 1)
        (endTKey 1)).take (2 : Int).toNat).map decodedLS) ∧
    (((processRangeKeys [(NewTypeSizeLabelTKey 1 3 5, [])] (begTKey 1)
      (endTKey 1)).take (2 : Int).toNat).map decodedLS).length ≤ (2 : Int).toNat ∧
    (((processRangeKeys [(NewTypeSizeLabelTKey 1 3 5, [])] (begTKey 1)
      (endTKey 1)).take (2 : Int).toNat).map decodedLS).Pairwise
      (fun a b => b.Size < a.Size ∨ (a.Size = b.Size ∧ a.Label < b.Label)) :=
  top_spec [(NewTypeSizeLabelTKey 1 3 5, [])] 2 1 (by norm_num) (by simp) (by decide)

/-- C9: a label whose only size key carries count 2^32 − 1 is excluded from
both scans — the span begins at the key encoding count 2^32 − 2 (inverted
count 1), and the key encoding inverted count 0 sorts strictly below it. -/
theorem scans_exclude_maxcount (store : KVStoreM) (i L : Nat) (hi : i < 256)
    (hL : ∀ kv ∈ store, ∀ it sz, DecodeTypeSizeLabelTKey kv.1 = some (it, sz, L) →
      sz = 4294967295)
    (n : Int) (minSize : Nat) (offset num : Int) :
    (∀ lsz, GetTopElementType store n i = .ok lsz → ∀ e ∈ lsz, e.Label ≠ L) ∧
    (∀ lsz, GetLabelsByThreshold store i minSize offset num = .ok lsz →
      ∀ e ∈ lsz, e.Label ≠ L) := by
  have key_mem : ∀ k ∈ processRangeKeys store (begTKey i) (endTKey i),
      (∃ kv ∈ store, kv.1 = k) ∧ bytesLE (begTKey i) k = true ∧
        bytesLE k (endTKey i) = true := by
    intro k hk
    unfold processRangeKeys at hk
    simp only [List.mem_map, List.mem_filter, Bool.and_eq_true] at hk
    obtain ⟨kv, ⟨hkv, hc1, hc2⟩, rfl⟩ := hk
    exact ⟨⟨kv, hkv, rfl⟩, hc1, hc2⟩
  have main : ∀ k ∈ processRangeKeys store (begTKey i) (endTKey i),
      ∀ e : LabelSize, DecodeTypeSizeLabelTKey k = some (i, e.Size, e.Label) →
      e.Label ≠ L := by
    intro k hk e hdec heq
    obtain ⟨⟨kv, hkv, hkv1⟩, hbeg, hend⟩ := key_mem k hk
    subst hkv1
    have hmax := hL kv hkv i e.Size (heq ▸ hdec)
    exact in_range_not_maxcount i hi kv.1 i e.Size e.Label hdec hbeg hend hmax
  constructor
  · intro lsz h e he heq
    by_cases hn0 : n < 0
    · unfold GetTopElementType at h
      rw [if_pos hn0] at h
      exact absurd h (by simp)
    · by_cases hn1 : n = 0
      · unfold GetTopElementType at h
        rw [if_neg hn0, if_pos hn1] at h
        simp only [Except.ok.injEq] at h
        subst h
        simp at he
      · unfold GetTopElementType at h
        rw [if_neg hn0, if_neg hn1] at h
        obtain ⟨k, hkmem, hkdec⟩ := topVisit_mem i n.toNat _ 0 lsz h e he
        exact main k hkmem e hkdec heq
  · intro lsz h e he heq
    unfold GetLabelsByThreshold at h
    by_cases hn1 : num = 0
    · rw [if_pos hn1] at h
      obtain ⟨k, hkmem, hkdec⟩ :=
        thrVisit_mem i minSize offset MaxLabelsReturned _ 0 0 lsz h e he
      exact main k hkmem e hkdec heq
    · by_cases hn0 : num < 0
      · rw [if_neg hn1, if_pos hn0] at h
        exact absurd h (by simp)
      · rw [if_neg hn1, if_neg hn0] at h
        obtain ⟨k, hkmem, hkdec⟩ :=
          thrVisit_mem i minSize offset num.toNat _ 0 0 lsz h e he
        exact main k hkmem e hkdec heq

/-- Witness for C9: a store whose only key carries label 7 at count 2^32 − 1. -/
theorem scans_exclude_maxcount_witness :
    (∀ lsz, GetTopElementType [(NewTypeSizeLabelTKey 1 4294967295 7, [])] 1 1 = .ok lsz →
      ∀ e ∈ lsz, e.Label ≠ 7) ∧
    (∀ lsz, GetLabelsByThreshold [(NewTypeSizeLabelTKey 1 4294967295 7, [])] 1 0 0 1 =
      .ok lsz → ∀ e ∈ lsz, e.Label ≠ 7) :=
  scans_exclude_maxcount [(NewTypeSizeLabelTKey 1 4294967295 7, [])] 1 7 (by norm_num)
    (by
      intro kv hkv it sz hdec
      simp only [List.mem_singleton] at hkv
      subst hkv
      rw [DecodeTypeSizeLabelTKey_encode 1 4294967295 7 (by norm_num) (by norm_num)
        (by norm_num)] at hdec
      simp only [Option.some.injEq, Prod.mk.injEq] at hdec
      omega)
    1 0 0 1

/-! ## Log record framing round-trip -/

theorem leBytes_length (w v : Nat) : (leBytes w v).length = w := by
  induction w generalizing v with
  | zero => rfl
  | succ w ih => simp [leBytes, ih]

theorem leVal_leBytes (w v : Nat) : leVal (leBytes w v) = v % 256 ^ w := by
  induction w generalizing v with
  | zero => simp [leBytes, leVal, Nat.mod_one]
  | succ w ih =>
    simp only [leBytes, leVal, ih]
    rw [show (256 : Nat) ^ (w + 1) = 256 * 256 ^ w by ring, Nat.mod_mul]

theorem writeHeaderBytes_length (t : Nat) (p : List Nat) :
    (writeHeaderBytes t p).length = 6 := by
  simp [writeHeaderBytes, leBytes_length]

theorem decodeLog_append (t : Nat) (p rest : List Nat) (ht : t < 65536)
    (hp : p.length < 4294967296) :
    decodeLog (writeHeaderBytes t p ++ p ++ rest) =
      (decodeLog rest).map (fun l => (t, p.length, p) :: l) := by
  have hle2 : (leBytes 2 t).length = 2 := leBytes_length _ _
  have hle4 : (leBytes 4 p.length).length = 4 := leBytes_length _ _
  have hasc : writeHeaderBytes t p ++ p ++ rest =
      leBytes 2 t ++ (leBytes 4 p.length ++ (p ++ rest)) := by
    simp [writeHeaderBytes, List.append_assoc]
  have hlen6 : ¬ (writeHeaderBytes t p ++ p ++ rest).length < 6 := by
    simp [writeHeaderBytes_length]
  have htake2 : (writeHeaderBytes t p ++ p ++ rest).take 2 = leBytes 2 t := by
    rw [hasc]
    exact List.take_left' hle2
  have hdrop2 : (writeHeaderBytes t p ++ p ++ rest).drop 2 =
      leBytes 4 p.length ++ (p ++ rest) := by
    rw [hasc]
    exact List.drop_left' hle2
  have hdrop6 : (writeHeaderBytes t p ++ p ++ rest).drop 6 = p ++ rest := by
    rw [show writeHeaderBytes t p ++ p ++ rest =
      (leBytes 2 t ++ leBytes 4 p.length) ++ (p ++ rest) by
        simp [writeHeaderBytes, List.append_assoc]]
    exact List.drop_left' (by simp [hle2, hle4])
  have hrh : readHeaderM (writeHeaderBytes t p ++ p ++ rest) = some (t, p.length) := by
    unfold readHeaderM
    rw [if_neg hlen6, htake2, hdrop2, List.take_left' hle4,
      leVal_leBytes, leVal_leBytes]
    rw [Nat.mod_eq_of_lt (by norm_num at ht ⊢; omega),
      Nat.mod_eq_of_lt (by norm_num at hp ⊢; omega)]
  rw [decodeLog]
  rw [dif_neg hlen6]
  simp only [hrh]
  rw [if_neg (by rw [hdrop6]; simp only [List.length_append]; omega), hdrop6,
    List.take_left, List.drop_left]
  cases hdl : decodeLog rest with
  | none => simp
  | some l => simp

theorem appendAll_foldl (entries : List (Nat × List Nat)) :
    ∀ acc : List Nat,
      entries.foldl (fun f e => logAppend f e.1 e.2) acc =
        acc ++ (entries.map fun e => writeHeaderBytes e.1 e.2 ++ e.2).flatten := by
  induction entries with
  | nil => intro acc; simp
  | cons e rest ih =>
    intro acc
    simp only [List.foldl_cons, List.map_cons, List.flatten]
    rw [ih]
    simp [logAppend, List.append_assoc]

/-- C6: a sequence of `Append(entryType, payload)` calls on one log file
produces exactly the concatenation, in append order, of records framed as a
little-endian u16 entry type, a little-endian u32 payload length equal to
`len(payload)`, then the payload bytes; iterating the header decoder over the
file recovers the exact appended sequence of (type, length, payload). -/
theorem log_roundtrip (entries : List (Nat × List Nat))
    (hty : ∀ e ∈ entries, e.1 < 65536)
    (hlen : ∀ e ∈ entries, e.2.length < 4294967296) :
    appendAll entries = (entries.map fun e => writeHeaderBytes e.1 e.2 ++ e.2).flatten ∧
    decodeLog (appendAll entries) = some (entries.map fun e => (e.1, e.2.length, e.2)) := by
  have hjoin : appendAll entries =
      (entries.map fun e => writeHeaderBytes e.1 e.2 ++ e.2).flatten := by
    unfold appendAll
    rw [appendAll_foldl entries []]
    simp
  refine ⟨hjoin, ?_⟩
  rw [hjoin]
  clear hjoin
  induction entries with
  | nil =>
    rw [decodeLog]
    simp
  | cons e rest ih =>
    simp only [List.map_cons, List.flatten]
    rw [decodeLog_append e.1 e.2 _
      (hty e (List.mem_cons_self _ _)) (hlen e (List.mem_cons_self _ _))]
    rw [ih (fun x hx => hty x (List.mem_cons_of_mem _ hx))
      (fun x hx => hlen x (List.mem_cons_of_mem _ hx))]
    simp

/-- Witness for C6 at a concrete two-record append sequence. -/
theorem log_roundtrip_witness :
    appendAll [(3, [10, 20]), (65535, [])] =
      ([(3, [10, 20]), (65535, [])].map fun e => writeHeaderBytes e.1 e.2 ++ e.2).flatten ∧
    decodeLog (appendAll [(3, [10, 20]), (65535, [])]) =
      some ([(3, [10, 20]), (65535, [])].map fun e => (e.1, e.2.length, e.2)) :=
  log_roundtrip [(3, [10, 20]), (65535, [])] (by decide) (by decide)

/-! ## Claim theorems: ROI filter and log routing -/

/-- C10: with no static ROI configured, `inROI` is `true` for every position;
with a static ROI whose load fails on first use, the first call returns
`false` (marking the ROI checked), and every later call returns `false` with
an unchanged state and without consulting the loader again (the result is the
same for an arbitrary loader). -/
theorem inROI_spec (load : Except String (Option ROI)) (d : LabelszData) (p : Pos) :
    (d.StaticROI = "" → inROI load d p = (true, d)) ∧
    (d.StaticROI ≠ "" → d.roiChecked = false → d.iROI = none →
      ∀ err, load = .error err →
        (inROI load d p).1 = false ∧
        (inROI load d p).2 = { d with roiChecked := true } ∧
        (∀ (load2 : Except String (Option ROI)) (p2 : Pos),
          inROI load2 (inROI load d p).2 p2 = (false, (inROI load d p).2))) := by
  constructor
  · intro h
    simp [inROI, h]
  · intro h1 h2 h3 err herr
    subst herr
    have hrun : inROI (.error err) d p = (false, { d with roiChecked := true }) := by
      simp [inROI, h1, h2]
    refine ⟨by rw [hrun], by rw [hrun], ?_⟩
    intro load2 p2
    rw [hrun]
    simp [inROI, h1, h3]

/-- Witness for C10: a failing first load on a configured ROI. -/
theorem inROI_spec_witness :
    (inROI (Except.error "fail") ⟨"r,u", false, none⟩ ((0 : Int), (0 : Int), (0 : Int))).1
      = false ∧
    (inROI (Except.error "fail") ⟨"r,u", false, none⟩ ((0 : Int), (0 : Int), (0 : Int))).2
      = ⟨"r,u", true, none⟩ ∧
    (∀ (load2 : Except String (Option ROI)) (p2 : Pos),
      inROI load2
        (inROI (Except.error "fail") ⟨"r,u", false, none⟩ ((0 : Int), (0 : Int), (0 : Int))).2
        p2 =
      (false,
        (inROI (Except.error "fail") ⟨"r,u", false, none⟩
          ((0 : Int), (0 : Int), (0 : Int))).2)) :=
  (inROI_spec (Except.error "fail") ⟨"r,u", false, none⟩
    ((0 : Int), (0 : Int), (0 : Int))).2 (by decide) rfl rfl "fail" rfl

/-- C8: after setup, a data instance with no per-instance log assignment whose
datatype has no per-datatype log assignment gets, when no default log is
configured, a nil write log together with a nil error (not a configuration
error). -/
theorem getAssignedLog_nil (m : ManagerT) (dataname root typename : String)
    (hsetup : m.setup = true)
    (hinst : lookupAssoc m.instanceLog (GetDataSpecifier dataname root) = none)
    (hdtype : lookupAssoc m.datatypeLog typename = none)
    (hdef : m.defaultLog = none) :
    GetAssignedLog m dataname root typename = .ok none := by
  simp [GetAssignedLog, assignedLogByType, hsetup, hinst, hdtype, hdef]

/-- Witness for C8 at a set-up manager with no assignments and no default log. -/
theorem getAssignedLog_nil_witness :
    GetAssignedLog { setup := true } "inst" "root" "labelsz" = .ok none :=
  getAssignedLog_nil { setup := true } "inst" "root" "labelsz" rfl rfl rfl rfl

/-! ## Initialize: store-opening loop facts -/

theorem openStores_cons_step (bk : Backend) (a : Alias) (c : StoreConfigM)
    (rest : List (Alias × StoreConfigM)) (acc : OpenAcc)
    (hfind : acc.stores.find? (fun p => storeEqual p.2 c) = none)
    (sc : StoreM) (cr : Bool) (hnew : NewStoreM c = .ok (sc, cr))
    (hwl : a = bk.defaultLog → isWriteLog sc = true) :
    ∃ acc2 : OpenAcc, openStores bk ((a, c) :: rest) acc = openStores bk rest acc2 ∧
      acc2.stores = acc.stores ++ [(a, sc)] ∧
      acc2.lastStore = some sc ∧
      ((acc.gotDefault = true → acc.defaultKV.isSome = true) →
        (acc2.gotDefault = true → acc2.defaultKV.isSome = true)) := by
  simp only [openStores, hfind, hnew]
  by_cases h3 : a = bk.defaultLog
  · rw [if_pos h3, if_pos (hwl h3)]
    refine ⟨_, rfl, ?_, ?_, ?_⟩ <;>
      by_cases h1 : a = bk.metadata <;> by_cases h2 : a = bk.defaultKVDB <;>
        simp_all
  · rw [if_neg h3]
    refine ⟨_, rfl, ?_, ?_, ?_⟩ <;>
      by_cases h1 : a = bk.metadata <;> by_cases h2 : a = bk.defaultKVDB <;>
        simp_all

theorem openStores_inv (bk : Backend) (l : List (Alias × StoreConfigM)) :
    ∀ acc : OpenAcc,
      (openStores bk l acc).2 = none →
      (acc.gotDefault = true → acc.defaultKV.isSome = true) →
      ((openStores bk l acc).1.gotDefault = true →
        (openStores bk l acc).1.defaultKV.isSome = true) ∧
      (l ≠ [] ∨ acc.lastStore.isSome = true →
        (openStores bk l acc).1.lastStore.isSome = true) := by
  induction l with
  | nil =>
    intro acc _ hdflt
    refine ⟨hdflt, ?_⟩
    rintro (h | h)
    · exact absurd rfl h
    · exact h
  | cons hd rest ih =>
    intro acc hnone hdflt
    obtain ⟨a, c⟩ := hd
    cases hfind : acc.stores.find? (fun p => storeEqual p.2 c) with
    | some q => simp [openStores, hfind] at hnone
    | none =>
      cases hnew : NewStoreM c with
      | error e => simp [openStores, hfind, hnew] at hnone
      | ok sp =>
        obtain ⟨sc, cr⟩ := sp
        by_cases h3 : a = bk.defaultLog
        · by_cases hwl : isWriteLog sc = true
          · obtain ⟨acc2, hstep, _, hlast, hdf⟩ :=
              openStores_cons_step bk a c rest acc hfind sc cr hnew (fun _ => hwl)
            rw [hstep] at hnone ⊢
            have hres := ih acc2 hnone (hdf hdflt)
            exact ⟨hres.1, fun _ => hres.2 (Or.inr (by rw [hlast]; rfl))⟩
          · simp [openStores, hfind, hnew, h3, hwl] at hnone
        · obtain ⟨acc2, hstep, _, hlast, hdf⟩ :=
            openStores_cons_step bk a c rest acc hfind sc cr hnew (fun h => absurd h h3)
          rw [hstep] at hnone ⊢
          have hres := ih acc2 hnone (hdf hdflt)
          exact ⟨hres.1, fun _ => hres.2 (Or.inr (by rw [hlast]; rfl))⟩

theorem initialize_default_some (b : Backend) (m : ManagerT) (res : Except Err Bool)
    (hinit : InitializeM b = (m, res)) (hsetup : m.setup = true) :
    m.defaultKV.isSome = true := by
  unfold InitializeM at hinit
  split at hinit
  next acc e heq =>
    injection hinit with h1 h2
    rw [← h1] at hsetup
    simp at hsetup
  next acc heq =>
    have hinv := openStores_inv b b.stores {} (by rw [heq])
      (fun h => absurd h (by simp))
    rw [heq] at hinv
    split at hinit
    · injection hinit with h1 h2
      rw [← h1] at hsetup
      simp at hsetup
    · next hcond =>
      dsimp only [] at hinit
      repeat' split at hinit
      all_goals first
        | (injection hinit with h1 h2
           rw [← h1] at hsetup
           simp at hsetup
           done)
        | (injection hinit with h1 h2
           rw [← h1]
           first
             | exact hinv.1 ‹acc.gotDefault = true›
             | (apply hinv.2
                left
                intro hnil
                exact hcond ⟨by simpa using ‹¬ acc.gotDefault = true›,
                  by rw [hnil]; simp⟩))

/-- C5: for a request on a set-up manager produced by `InitializeM` (and a
data instance not wrapped by groupcache), `GetAssignedStore` resolves exactly
as the spec's three-step lookup: per-instance assignment, else per-datatype
assignment, else the default KV store with an error if no default exists (a
case that cannot arise: a set-up manager always holds a default store). -/
theorem getAssignedStore_spec (b : Backend) (m : ManagerT) (res : Except Err Bool)
    (dataname root typename : String)
    (hinit : InitializeM b = (m, res)) (hsetup : m.setup = true)
    (hgc : GetDataSpecifier dataname root ∉ m.gcacheSupported) :
    GetAssignedStore m dataname root typename =
      (specResolveStore m dataname root typename).map some := by
  have hdef : m.defaultKV.isSome = true :=
    initialize_default_some b m res hinit hsetup
  obtain ⟨s, hs⟩ := Option.isSome_iff_exists.mp hdef
  unfold GetAssignedStore specResolveStore assignedStoreByType
  cases h1 : lookupAssoc m.instanceStore (GetDataSpecifier dataname root) with
  | some st => simp [hsetup, h1, hgc, Except.map]
  | none =>
    cases h2 : lookupAssoc m.datatypeStore typename with
    | some st => simp [hsetup, h1, h2, hgc, Except.map]
    | none => simp [hsetup, h1, h2, hgc, hs, Except.map]

/-- Witness for C5: a backend with a single ordered KV store aliased `s1` set
as the default; `InitializeM` succeeds and marks the manager set up. -/
theorem getAssignedStore_spec_witness :
    (InitializeM { stores := [("s1", { engine := .okv })], defaultKVDB := "s1" }).1.setup
      = true ∧
    GetAssignedStore
      (InitializeM { stores := [("s1", { engine := .okv })], defaultKVDB := "s1" }).1
      "inst" "root" "labelsz" =
    (specResolveStore
      (InitializeM { stores := [("s1", { engine := .okv })], defaultKVDB := "s1" }).1
      "inst" "root" "labelsz").map some :=
  ⟨by decide,
    getAssignedStore_spec { stores := [("s1", { engine := .okv })], defaultKVDB := "s1" }
      (InitializeM { stores := [("s1", { engine := .okv })], defaultKVDB := "s1" }).1
      (InitializeM { stores := [("s1", { engine := .okv })], defaultKVDB := "s1" }).2
      "inst" "root" "labelsz" rfl (by decide) (by decide)⟩

theorem openStores_dup (bk : Backend) (l : List (Alias × StoreConfigM)) :
    ∀ acc : OpenAcc,
      (∀ ac ∈ l, (NewStoreM ac.2).isOk = true) →
      (∀ ac ∈ l, ac.1 = bk.defaultLog → isWriteLog (openedStore ac.2) = true) →
      ((∃ st ∈ acc.stores, ∃ p ∈ l, storeEqual st.2 p.2 = true) ∨
       (∃ l1 x cx l2 y cy l3, l = l1 ++ (x, cx) :: l2 ++ (y, cy) :: l3 ∧
         storeEqual (openedStore cx) cy = true)) →
      ∃ a1 a2, (openStores bk l acc).2 = some (Err.duplicateStore a1 a2) := by
  induction l with
  | nil =>
    intro acc _ _ hdup
    rcases hdup with ⟨st, _, p, hp, _⟩ | ⟨l1, x, cx, l2, y, cy, l3, heql, _⟩
    · simp at hp
    · cases l1 with
      | nil => simp at heql
      | cons q l1t => simp at heql
  | cons hd rest ih =>
    intro acc hopen hlog hdup
    obtain ⟨a, c⟩ := hd
    cases hfind : acc.stores.find? (fun p => storeEqual p.2 c) with
    | some q =>
      refine ⟨a, q.1, ?_⟩
      simp [openStores, hfind]
    | none =>
      have hok := hopen (a, c) (List.mem_cons_self _ _)
      obtain ⟨sc, cr, hnew⟩ : ∃ sc cr, NewStoreM c = .ok (sc, cr) := by
        cases hn : NewStoreM c with
        | error e => rw [hn] at hok; simp [Except.isOk, Except.toBool] at hok
        | ok v =>
          obtain ⟨s1, c1⟩ := v
          exact ⟨s1, c1, rfl⟩
      have hsc : openedStore c = sc := by unfold openedStore; rw [hnew]
      obtain ⟨acc2, hstep, hst, _, _⟩ := openStores_cons_step bk a c rest acc hfind sc cr
        hnew (fun h => by rw [← hsc]; exact hlog (a, c) (List.mem_cons_self _ _) h)
      rw [hstep]
      apply ih acc2 (fun x hx => hopen x (List.mem_cons_of_mem _ hx))
        (fun x hx => hlog x (List.mem_cons_of_mem _ hx))
      rcases hdup with ⟨st, hstmem, p, hp, heqp⟩ | ⟨l1, x, cx, l2, y, cy, l3, heql, heqd⟩
      · rcases List.mem_cons.mp hp with rfl | hp2
        · have := List.find?_eq_none.mp hfind st hstmem
          simp only [heqp] at this
          exact absurd trivial this
        · left
          exact ⟨st, by rw [hst]; exact List.mem_append_left _ hstmem, p, hp2, heqp⟩
      · cases l1 with
        | nil =>
          rw [List.nil_append] at heql
          injection heql with hax hrest
          obtain ⟨hax1, hax2⟩ := Prod.mk.inj hax
          left
          refine ⟨(a, sc), ?_, (y, cy), ?_, ?_⟩
          · rw [hst]
            exact List.mem_append_right _ (List.mem_singleton.mpr rfl)
          · rw [hrest]
            exact List.mem_append_right _ (List.mem_cons_self _ _)
          · rw [← hsc, hax2]
            exact heqd
        | cons q l1t =>
          rw [List.cons_append] at heql
          injection heql with h1 hrest
          right
          exact ⟨l1t, x, cx, l2, y, cy, l3, hrest, heqd⟩

/-- C7: when two distinct store aliases carry configurations that an opened
store's `Equal` method identifies as equal, `Initialize` stops with an error
naming the duplicate pair and the storage manager is not marked set up; for
the filelog engine, `Equal` holds exactly when the given configuration's
parsed path equals the opened log's path. -/
theorem initialize_rejects_duplicates (b : Backend)
    (hopen : ∀ ac ∈ b.stores, (NewStoreM ac.2).isOk = true)
    (hlog : ∀ ac ∈ b.stores, ac.1 = b.defaultLog → isWriteLog (openedStore ac.2) = true)
    (hdup : ∃ l1 x cx l2 y cy l3, b.stores = l1 ++ (x, cx) :: l2 ++ (y, cy) :: l3 ∧
      storeEqual (openedStore cx) cy = true) :
    (∃ a1 a2, (InitializeM b).2 = .error (Err.duplicateStore a1 a2)) ∧
    (InitializeM b).1.setup = false ∧
    (∀ pth cfg c2, storeEqual (StoreM.wlog pth cfg) c2 = true ↔
      ∃ t2, parseConfig c2 = .ok (pth, t2)) := by
  obtain ⟨a1, a2, hsome⟩ := openStores_dup b b.stores {} hopen hlog (Or.inr hdup)
  refine ⟨⟨a1, a2, ?_⟩, ?_, ?_⟩
  · unfold InitializeM
    cases hos : openStores b b.stores {} with
    | mk acc oe =>
      rw [hos] at hsome
      dsimp only at hsome
      subst hsome
      rfl
  · unfold InitializeM
    cases hos : openStores b b.stores {} with
    | mk acc oe =>
      rw [hos] at hsome
      dsimp only at hsome
      subst hsome
      rfl
  · intro pth cfg c2
    unfold storeEqual
    cases hp : parseConfig c2 with
    | error e => simp [hp]
    | ok v =>
      obtain ⟨p2, t2⟩ := v
      simp only [hp]
      constructor
      · intro h
        exact ⟨t2, by rw [beq_iff_eq.mp h]⟩
      · rintro ⟨t3, h⟩
        injection h with hpair
        obtain ⟨h1, _⟩ := Prod.mk.inj hpair
        rw [beq_iff_eq]
        exact h1.symm

/-- Witness for C7: two aliases `a` and `b2` both configured as a filelog at
path `x`. -/
theorem initialize_rejects_duplicates_witness :
    (∃ a1 a2, (InitializeM
      { stores := [("a", { engine := .filelog, path := some "x" }),
                   ("b2", { engine := .filelog, path := some "x" })],
        defaultKVDB := "a" }).2 = .error (Err.duplicateStore a1 a2)) ∧
    (InitializeM
      { stores := [("a", { engine := .filelog, path := some "x" }),
                   ("b2", { engine := .filelog, path := some "x" })],
        defaultKVDB := "a" }).1.setup = false ∧
    (∀ pth cfg c2, storeEqual (StoreM.wlog pth cfg) c2 = true ↔
      ∃ t2, parseConfig c2 = .ok (pth, t2)) :=
  initialize_rejects_duplicates
    { stores := [("a", { engine := .filelog, path := some "x" }),
                 ("b2", { engine := .filelog, path := some "x" })],
      defaultKVDB := "a" }
    (by decide) (by decide)
    ⟨[], "a", { engine := .filelog, path := some "x" }, [], "b2",
      { engine := .filelog, path := some "x" }, [], rfl, by decide⟩
